import Mathlib

/-!
Shallow embedding of src/DFS.cpp: a single-process replicated file store.

The coordinator state is the pair of the node vector and the metadata map
(filename to the list of node ids storing a replica).  The storage
collaborator (std::filesystem in the source) is modelled explicitly:

* the physical state is the finite set of (node id, filename) copies,
  represented as a duplicate-free list `Phys`;
* each filesystem call that can throw a filesystem_error is driven by a
  Boolean failure oracle (`storeFails`, `fetchFails`, `removeFails`), so a
  theorem quantifying over the oracle quantifies over all I/O outcomes;
* existence of the upload source file is the Boolean `srcExists`.

std::map iterates in key order; no claim below depends on the iteration
order of the metadata map, so it is embedded as an association list with
unique keys (`mapPut` overwrites in place, `mapErase` removes the entry).
-/

namespace DFS

/-- A storage node: stable integer id and a mutable liveness flag
(class Node, src/DFS.cpp lines 10-27; the backing directory path carries
no state beyond the id and is dropped). -/
structure Node where
  id : Nat
  active : Bool
deriving DecidableEq

/-- The set of physical copies, as (node id, filename) pairs. -/
abbrev Phys := List (Nat × String)

/-- fs::copy with overwrite_existing into a node directory: the copy set
gains (i, key) if absent. -/
def physStore (phys : Phys) (i : Nat) (key : String) : Phys :=
  if (i, key) ∈ phys then phys else phys ++ [(i, key)]

/-- fs::remove of a node's copy of key: drops (i, key) from the copy set. -/
def physRemove (phys : Phys) (i : Nat) (key : String) : Phys :=
  phys.filter (fun c => c ≠ (i, key))

/-- Lookup in the metadata map (std::map::count / operator[] read). -/
def mapLookup (m : List (String × List Nat)) (k : String) : Option (List Nat) :=
  match m with
  | [] => none
  | (k', v) :: rest => if k' = k then some v else mapLookup rest k

/-- std::map operator[] assignment: overwrite the entry for k if present,
otherwise insert one. -/
def mapPut (m : List (String × List Nat)) (k : String) (v : List Nat) :
    List (String × List Nat) :=
  match m with
  | [] => [(k, v)]
  | (k', v') :: rest => if k' = k then (k, v) :: rest else (k', v') :: mapPut rest k v

/-- std::map::erase by key. -/
def mapErase (m : List (String × List Nat)) (k : String) :
    List (String × List Nat) :=
  match m with
  | [] => []
  | (k', v') :: rest => if k' = k then rest else (k', v') :: mapErase rest k

/-- Coordinator state: the node vector and the metadata map
(class DistributedFS, fields at src/DFS.cpp lines 31-34). -/
structure DistributedFS where
  nodes : List Node
  metadata : List (String × List Nat)
deriving DecidableEq

/-- const int REPLICATION = 3 (src/DFS.cpp line 36). -/
def REPLICATION : Nat := 3

/-- Constructor DistributedFS(totalNodes): nodes with ids 1..totalNodes,
all active, empty metadata (src/DFS.cpp lines 39-44). -/
def DistributedFS.init (totalNodes : Nat) : DistributedFS :=
  { nodes := (List.range totalNodes).map (fun i => { id := i + 1, active := true }),
    metadata := [] }

/-- Outcome of the upload replication loop: either a filesystem_error was
thrown mid-scan (carrying the copy set at the moment of the throw), or the
loop ran to completion / break with the chosen ids and the counter. -/
inductive ScanOut where
  | thrown (phys : Phys)
  | done (phys : Phys) (used : List Nat) (replicated : Nat)
deriving DecidableEq

/-- The replication loop of upload (src/DFS.cpp lines 56-67): scan nodes in
vector order; for each active node copy the file (which may throw), record
the id and bump the counter; break once the counter reaches REPLICATION. -/
def uploadScan (storeFails : Nat → Bool) (key : String) :
    List Node → Phys → List Nat → Nat → ScanOut
  | [], phys, _used, r => .done phys _used r
  | n :: rest, phys, used, r =>
    if n.active then
      if storeFails n.id then .thrown phys
      else
        if r + 1 = REPLICATION then .done (physStore phys n.id key) (used ++ [n.id]) (r + 1)
        else uploadScan storeFails key rest (physStore phys n.id key) (used ++ [n.id]) (r + 1)
    else
      if r = REPLICATION then .done phys used r
      else uploadScan storeFails key rest phys used r

/-- Result reported by upload. -/
inductive UploadResult where
  | success (used : List Nat)
  | sourceNotFound
  | replicationIOError
  | insufficientReplicas
deriving DecidableEq

/-- DistributedFS::upload (src/DFS.cpp lines 47-83).  Returns the new
coordinator state, the new physical state, and the reported result.  The
catch block only prints and returns, so on a throw the state is returned
as it stood: copies already written stay written and nothing is committed. -/
def upload (srcExists : Bool) (storeFails : Nat → Bool) (d : DistributedFS)
    (phys : Phys) (key : String) : DistributedFS × Phys × UploadResult :=
  if !srcExists then (d, phys, .sourceNotFound)
  else
    match uploadScan storeFails key d.nodes phys [] 0 with
    | .thrown phys' => (d, phys', .replicationIOError)
    | .done phys' used replicated =>
      if replicated < REPLICATION then (d, phys', .insufficientReplicas)
      else ({ d with metadata := mapPut d.metadata key used }, phys', .success used)

/-- nodes[i - 1].active as read through a checked lookup; an out-of-range
id (undefined behaviour in the C++ source, ruled out by the reachable-state
invariant) is treated as inactive. -/
def nodeActive (d : DistributedFS) (i : Nat) : Bool :=
  match d.nodes[i - 1]? with
  | some n => n.active
  | none => false

/-- Result reported by download. -/
inductive DownloadResult where
  | success (nodeId : Nat)
  | notFound
  | replicationIOError
  | allReplicasUnavailable
deriving DecidableEq

/-- The replica loop of download (src/DFS.cpp lines 93-105): walk the
recorded ids in order; at the first active node attempt the fetch, which
either throws (caught: the whole download aborts) or succeeds. -/
def downloadScan (d : DistributedFS) (fetchFails : Nat → Bool) :
    List Nat → DownloadResult
  | [] => .allReplicasUnavailable
  | nid :: rest =>
    if nodeActive d nid then
      if fetchFails nid then .replicationIOError else .success nid
    else downloadScan d fetchFails rest

/-- DistributedFS::download (src/DFS.cpp lines 86-112).  Read-only on the
coordinator and physical state; the local downloaded_ copy is outside the
cluster model. -/
def download (d : DistributedFS) (fetchFails : Nat → Bool) (key : String) :
    DownloadResult :=
  match mapLookup d.metadata key with
  | none => .notFound
  | some ids => downloadScan d fetchFails ids

/-- Result reported by deleteFile. -/
inductive DeleteResult where
  | success
  | notFound
  | replicationIOError
deriving DecidableEq

/-- The removal loop of deleteFile (src/DFS.cpp lines 121-128): fs::remove
on each recorded node in order; a throw (oracle true) stops the loop with
the copies removed so far staying removed. -/
def deleteScan (removeFails : Nat → Bool) (key : String) :
    List Nat → Phys → Phys × Bool
  | [], phys => (phys, true)
  | nid :: rest, phys =>
    if removeFails nid then (phys, false)
    else deleteScan removeFails key rest (physRemove phys nid key)

/-- DistributedFS::deleteFile (src/DFS.cpp lines 115-133): on a throw the
catch block returns without erasing the metadata entry; only after all
removals succeed is the key erased. -/
def deleteFile (removeFails : Nat → Bool) (d : DistributedFS) (phys : Phys)
    (key : String) : DistributedFS × Phys × DeleteResult :=
  match mapLookup d.metadata key with
  | none => (d, phys, .notFound)
  | some ids =>
    match deleteScan removeFails key ids phys with
    | (phys', true) => ({ d with metadata := mapErase d.metadata key }, phys', .success)
    | (phys', false) => (d, phys', .replicationIOError)

/-- Result reported by failNode / recoverNode. -/
inductive NodeOpResult where
  | ok
  | invalidNode
deriving DecidableEq

/-- In-place update of the liveness flag at a vector index
(nodes[id - 1].fail() / .recover()). -/
def setActive : List Node → Nat → Bool → List Node
  | [], _, _ => []
  | n :: rest, 0, b => { n with active := b } :: rest
  | n :: rest, i + 1, b => n :: setActive rest i b

/-- DistributedFS::failNode (src/DFS.cpp lines 152-162).  The health audit
it triggers afterwards is read-only (checkReplicaHealth below applied to
the returned state) and mutates nothing. -/
def failNode (d : DistributedFS) (i : Nat) : DistributedFS × NodeOpResult :=
  if i < 1 ∨ d.nodes.length < i then (d, .invalidNode)
  else ({ d with nodes := setActive d.nodes (i - 1) false }, .ok)

/-- DistributedFS::recoverNode (src/DFS.cpp lines 165-175). -/
def recoverNode (d : DistributedFS) (i : Nat) : DistributedFS × NodeOpResult :=
  if i < 1 ∨ d.nodes.length < i then (d, .invalidNode)
  else ({ d with nodes := setActive d.nodes (i - 1) true }, .ok)

/-- Number of currently active nodes among a recorded replica id list
(the activeCount loop, src/DFS.cpp lines 193-197). -/
def activeCount (d : DistributedFS) (ids : List Nat) : Nat :=
  (ids.filter (fun i => nodeActive d i)).length

/-- DistributedFS::checkReplicaHealth (src/DFS.cpp lines 188-205): the list
of warnings (file, activeCount) emitted, one per stored file whose active
replica count is below 2. -/
def checkReplicaHealth (d : DistributedFS) : List (String × Nat) :=
  d.metadata.filterMap (fun e =>
    let c := activeCount d e.2
    if c < 2 then some (e.1, c) else none)

/-- Ids of the active nodes, in node-vector order (the candidate pool the
upload scan draws from). -/
def activeIds (ns : List Node) : List Nat :=
  (ns.filter (fun n => n.active)).map Node.id

/-- Fold of physStore over a list of node ids. -/
def storeAll (key : String) : List Nat → Phys → Phys
  | [], phys => phys
  | i :: rest, phys => storeAll key rest (physStore phys i key)

/-- The node vector is well formed: the ids read 1..length in order, as the
constructor produces and every operation preserves. -/
def NodesWF (d : DistributedFS) : Prop :=
  d.nodes.map Node.id = List.range' 1 d.nodes.length

/-- Every node id recorded in the metadata map lies in [1, node count]. -/
def idsValid (d : DistributedFS) : Prop :=
  ∀ e ∈ d.metadata, ∀ i ∈ e.2, 1 ≤ i ∧ i ≤ d.nodes.length

/-- The first id in a replica list whose node is currently active — the
replica a download is served from. -/
def firstActive (d : DistributedFS) : List Nat → Option Nat
  | [] => none
  | nid :: rest => if nodeActive d nid then some nid else firstActive d rest

/-- A concrete three-node cluster holding one file "f" with the given
replica id list, used to instantiate the general theorems below. -/
def smallCluster (a1 a2 a3 : Bool) (ids : List Nat) : DistributedFS :=
  { nodes := [{ id := 1, active := a1 }, { id := 2, active := a2 }, { id := 3, active := a3 }],
    metadata := [("f", ids)] }

/-- States reachable from the constructor by the state-mutating operations
(download, listFiles, showNodes and checkReplicaHealth read but never write
the coordinator state, as their embedded types already show). -/
inductive Reachable : DistributedFS → Prop where
  | init (n : Nat) : Reachable (DistributedFS.init n)
  | upload (src : Bool) (sf : Nat → Bool) (phys : Phys) (key : String)
      {d : DistributedFS} : Reachable d → Reachable (DFS.upload src sf d phys key).1
  | deleteFile (rf : Nat → Bool) (phys : Phys) (key : String)
      {d : DistributedFS} : Reachable d → Reachable (DFS.deleteFile rf d phys key).1
  | failNode (i : Nat) {d : DistributedFS} :
      Reachable d → Reachable (DFS.failNode d i).1
  | recoverNode (i : Nat) {d : DistributedFS} :
      Reachable d → Reachable (DFS.recoverNode d i).1

end DFS

namespace DFS

lemma mem_physStore_self (phys : Phys) (i : Nat) (key : String) :
    (i, key) ∈ physStore phys i key := by
  unfold physStore
  split
  · assumption
  · simp

lemma mem_physStore_of_mem {c : Nat × String} {phys : Phys} (i : Nat) (key : String)
    (h : c ∈ phys) : c ∈ physStore phys i key := by
  unfold physStore
  split
  · exact h
  · exact List.mem_append_left _ h

lemma mem_storeAll_of_mem {c : Nat × String} (key : String) :
    ∀ (l : List Nat) (phys : Phys), c ∈ phys → c ∈ storeAll key l phys
  | [], _, h => h
  | i :: rest, phys, h =>
    mem_storeAll_of_mem key rest (physStore phys i key) (mem_physStore_of_mem i key h)

lemma mem_storeAll_self (key : String) :
    ∀ (l : List Nat) (phys : Phys) (i : Nat), i ∈ l → (i, key) ∈ storeAll key l phys := by
  intro l
  induction l with
  | nil => intro phys i h; cases h
  | cons j rest ih =>
    intro phys i h
    rcases List.mem_cons.mp h with h | h
    · subst h
      exact mem_storeAll_of_mem key rest _ (mem_physStore_self phys i key)
    · exact ih _ i h

lemma uploadScan_noFail (key : String) :
    ∀ (ns : List Node) (phys : Phys) (used : List Nat) (r : Nat), r < REPLICATION →
    uploadScan (fun _ => false) key ns phys used r =
      ScanOut.done (storeAll key ((activeIds ns).take (REPLICATION - r)) phys)
        (used ++ (activeIds ns).take (REPLICATION - r))
        (min REPLICATION (r + (activeIds ns).length)) := by
  intro ns
  induction ns with
  | nil =>
    intro phys used r hr
    simp only [uploadScan, activeIds, List.filter_nil, List.map_nil, List.take_nil,
      storeAll, List.append_nil, List.length_nil, ScanOut.done.injEq, true_and]
    omega
  | cons n rest ih =>
    intro phys used r hr
    by_cases ha : n.active = true
    · by_cases hstop : r + 1 = REPLICATION
      · have h3 : REPLICATION - r = 1 := by unfold REPLICATION at *; omega
        simp only [uploadScan, ha, if_true, Bool.false_eq_true, if_false, hstop,
          activeIds, List.filter_cons, List.map_cons, h3, List.take_succ_cons,
          List.take_zero, storeAll, List.length_cons, ScanOut.done.injEq, true_and]
        unfold REPLICATION at *
        omega
      · have hlt : r + 1 < REPLICATION := by omega
        have h4 : REPLICATION - r = (REPLICATION - (r + 1)) + 1 := by omega
        rw [uploadScan]
        simp only [ha, if_true, Bool.false_eq_true, if_false, hstop]
        rw [ih _ _ _ hlt]
        simp only [activeIds, List.filter_cons, ha, if_true, List.map_cons, h4,
          List.take_succ_cons, storeAll, List.length_cons, ScanOut.done.injEq,
          List.append_assoc, List.singleton_append, true_and]
        omega
    · have ha' : n.active = false := by
        cases h : n.active
        · rfl
        · exact absurd h ha
      have hne : r ≠ REPLICATION := by omega
      rw [uploadScan]
      simp only [ha', Bool.false_eq_true, if_false, hne]
      rw [ih _ _ _ hr]
      simp only [activeIds, List.filter_cons, ha', Bool.false_eq_true, if_false]

end DFS

namespace DFS

lemma nodesWF_init (n : Nat) : NodesWF (DistributedFS.init n) := by
  simp only [NodesWF, DistributedFS.init, List.map_map, List.length_map,
    List.length_range, List.range'_eq_map_range]
  apply List.map_congr_left
  intro a _
  simp [Function.comp, Nat.add_comm]

lemma activeIds_pairwise {d : DistributedFS} (hwf : NodesWF d) :
    List.Pairwise (· < ·) (activeIds d.nodes) := by
  have h1 : List.Sublist (activeIds d.nodes) (d.nodes.map Node.id) :=
    (List.filter_sublist d.nodes).map Node.id
  have h2 : List.Pairwise (· < ·) (d.nodes.map Node.id) := by
    rw [hwf]; exact List.pairwise_lt_range' 1 d.nodes.length
  exact h2.sublist h1

lemma pairwise_take_smallest {l : List Nat} (h : List.Pairwise (· < ·) l) (n : Nat) :
    ∀ a ∈ l, a ∉ l.take n → ∀ b ∈ l.take n, b < a := by
  intro a ha hna b hb
  have hsplit := List.take_append_drop n l
  have h2 : List.Pairwise (· < ·) (l.take n ++ l.drop n) := by rw [hsplit]; exact h
  have h3 := (List.pairwise_append.mp h2).2.2
  have ha2 : a ∈ l.take n ++ l.drop n := by rw [hsplit]; exact ha
  rcases List.mem_append.mp ha2 with hcase | hcase
  · exact absurd hcase hna
  · exact h3 b hb a hcase

lemma mapLookup_mapPut_self (m : List (String × List Nat)) (k : String) (v : List Nat) :
    mapLookup (mapPut m k v) k = some v := by
  induction m with
  | nil => simp [mapPut, mapLookup]
  | cons e rest ih =>
    obtain ⟨k', v'⟩ := e
    by_cases h : k' = k
    · simp [mapPut, h, mapLookup]
    · simp [mapPut, h, mapLookup, ih]

lemma upload_noFail_enough (d : DistributedFS) (phys : Phys) (key : String)
    (hA : REPLICATION ≤ (activeIds d.nodes).length) :
    upload true (fun _ => false) d phys key =
      ({ d with metadata := mapPut d.metadata key ((activeIds d.nodes).take REPLICATION) },
       storeAll key ((activeIds d.nodes).take REPLICATION) phys,
       .success ((activeIds d.nodes).take REPLICATION)) := by
  have h0 : (0 : Nat) < REPLICATION := by unfold REPLICATION; omega
  unfold upload
  rw [uploadScan_noFail key d.nodes phys [] 0 h0]
  simp only [Nat.sub_zero, Nat.zero_add, List.nil_append, Bool.not_true,
    Bool.false_eq_true, if_false]
  rw [Nat.min_eq_left hA]
  simp

lemma upload_noFail_insufficient (d : DistributedFS) (phys : Phys) (key : String)
    (hA : (activeIds d.nodes).length < REPLICATION) :
    upload true (fun _ => false) d phys key =
      (d, storeAll key (activeIds d.nodes) phys, .insufficientReplicas) := by
  have h0 : (0 : Nat) < REPLICATION := by unfold REPLICATION; omega
  unfold upload
  rw [uploadScan_noFail key d.nodes phys [] 0 h0]
  have htake : (activeIds d.nodes).take (REPLICATION - 0) = activeIds d.nodes :=
    List.take_of_length_le (by omega)
  rw [htake]
  simp only [Nat.zero_add, List.nil_append, Bool.not_true, Bool.false_eq_true, if_false]
  rw [Nat.min_eq_right (Nat.le_of_lt hA)]
  simp [hA]

lemma uploadScan_thrown_mono (sf : Nat → Bool) (key : String) :
    ∀ (ns : List Node) (phys : Phys) (used : List Nat) (r : Nat) (p' : Phys),
      uploadScan sf key ns phys used r = ScanOut.thrown p' →
      ∀ c ∈ phys, c ∈ p' := by
  intro ns
  induction ns with
  | nil =>
    intro phys used r p' h
    simp [uploadScan] at h
  | cons n rest ih =>
    intro phys used r p' h c hc
    rw [uploadScan] at h
    cases ha : n.active with
    | true =>
      simp only [ha, if_true] at h
      cases hf : sf n.id with
      | true =>
        simp only [hf, if_true] at h
        cases h
        exact hc
      | false =>
        simp only [hf, Bool.false_eq_true, if_false] at h
        by_cases hstop : r + 1 = REPLICATION
        · simp [hstop] at h
        · simp only [hstop, if_false] at h
          exact ih _ _ _ _ h c (mem_physStore_of_mem _ _ hc)
    | false =>
      simp only [ha, Bool.false_eq_true, if_false] at h
      by_cases hstop : r = REPLICATION
      · simp [hstop] at h
      · simp only [hstop, if_false] at h
        exact ih _ _ _ _ h c hc

end DFS

namespace DFS

/-- Claim C2: an upload whose source exists, with at least REPLICATION active
nodes and every store call succeeding, succeeds and commits a replica set
of exactly REPLICATION distinct node ids — the REPLICATION smallest active
ids, in ascending order. -/
theorem upload_success_three_smallest (d : DistributedFS) (phys : Phys) (key : String)
    (hwf : NodesWF d) (hA : REPLICATION ≤ (activeIds d.nodes).length) :
    upload true (fun _ => false) d phys key =
      ({ d with metadata := mapPut d.metadata key ((activeIds d.nodes).take REPLICATION) },
       storeAll key ((activeIds d.nodes).take REPLICATION) phys,
       .success ((activeIds d.nodes).take REPLICATION)) ∧
    mapLookup (mapPut d.metadata key ((activeIds d.nodes).take REPLICATION)) key
      = some ((activeIds d.nodes).take REPLICATION) ∧
    ((activeIds d.nodes).take REPLICATION).length = REPLICATION ∧
    List.Pairwise (· < ·) ((activeIds d.nodes).take REPLICATION) ∧
    (∀ a ∈ activeIds d.nodes, a ∉ (activeIds d.nodes).take REPLICATION →
      ∀ b ∈ (activeIds d.nodes).take REPLICATION, b < a) := by
  refine ⟨upload_noFail_enough d phys key hA, mapLookup_mapPut_self _ _ _, ?_, ?_, ?_⟩
  · rw [List.length_take]
    exact Nat.min_eq_left hA
  · exact (activeIds_pairwise hwf).sublist (List.take_sublist _ _)
  · exact pairwise_take_smallest (activeIds_pairwise hwf) REPLICATION

theorem upload_success_three_smallest_witness :
    NodesWF (DistributedFS.init 4) ∧
    REPLICATION ≤ (activeIds (DistributedFS.init 4).nodes).length ∧
    upload true (fun _ => false) (DistributedFS.init 4) [] "a" =
      ({ DistributedFS.init 4 with
          metadata := mapPut (DistributedFS.init 4).metadata "a"
            ((activeIds (DistributedFS.init 4).nodes).take REPLICATION) },
       storeAll "a" ((activeIds (DistributedFS.init 4).nodes).take REPLICATION) [],
       .success ((activeIds (DistributedFS.init 4).nodes).take REPLICATION)) :=
  ⟨nodesWF_init 4, by decide,
    (upload_success_three_smallest (DistributedFS.init 4) [] "a" (nodesWF_init 4) (by decide)).1⟩

/-- Claim C3, counterexample: with 2 of 2 nodes active (fewer than REPLICATION),
an upload whose first store call throws reports replicationIOError, and an
upload whose source is missing reports sourceNotFound — in neither case
insufficientReplicas as the claim states for every such upload. -/
theorem upload_insufficient_counterexample :
    (activeIds (DistributedFS.init 2).nodes).length < REPLICATION ∧
    (upload true (fun _ => true) (DistributedFS.init 2) [] "f").2.2 ≠
      UploadResult.insufficientReplicas ∧
    (upload false (fun _ => false) (DistributedFS.init 2) [] "g").2.2 ≠
      UploadResult.insufficientReplicas := by
  exact ⟨by decide, by decide, by decide⟩

/-- Claim C3, amended: an upload whose source exists and whose store calls all
succeed, with fewer than REPLICATION active nodes, reports
insufficientReplicas and returns the coordinator state unchanged (its
directory mapping in particular). -/
theorem upload_insufficient_no_commit (d : DistributedFS) (phys : Phys) (key : String)
    (hA : (activeIds d.nodes).length < REPLICATION) :
    (upload true (fun _ => false) d phys key).2.2 = UploadResult.insufficientReplicas ∧
    (upload true (fun _ => false) d phys key).1 = d := by
  rw [upload_noFail_insufficient d phys key hA]
  exact ⟨rfl, rfl⟩

theorem upload_insufficient_no_commit_witness :
    (activeIds (DistributedFS.init 2).nodes).length < REPLICATION ∧
    ((upload true (fun _ => false) (DistributedFS.init 2) [] "f").2.2 =
        UploadResult.insufficientReplicas ∧
      (upload true (fun _ => false) (DistributedFS.init 2) [] "f").1 =
        DistributedFS.init 2) :=
  ⟨by decide, upload_insufficient_no_commit (DistributedFS.init 2) [] "f" (by decide)⟩

/-- Claim C5: if a store call throws mid-scan, the upload returns the state
unchanged (no replica set committed) together with the physical state
exactly as it stood at the throw, reporting replicationIOError; every copy
present before the call is still present — no compensating deletes. -/
theorem upload_ioerror_no_commit_no_rollback (sf : Nat → Bool) (d : DistributedFS)
    (phys : Phys) (key : String) (p' : Phys)
    (h : uploadScan sf key d.nodes phys [] 0 = ScanOut.thrown p') :
    upload true sf d phys key = (d, p', UploadResult.replicationIOError) ∧
    ∀ c ∈ phys, c ∈ p' := by
  constructor
  · unfold upload
    rw [h]
    simp
  · exact uploadScan_thrown_mono sf key d.nodes phys [] 0 p' h

theorem upload_ioerror_no_commit_no_rollback_witness :
    uploadScan (fun i => i == 2) "f" (DistributedFS.init 3).nodes [(9, "old")] [] 0 =
      ScanOut.thrown [(9, "old"), (1, "f")] ∧
    (upload true (fun i => i == 2) (DistributedFS.init 3) [(9, "old")] "f" =
        (DistributedFS.init 3, [(9, "old"), (1, "f")], UploadResult.replicationIOError) ∧
      ∀ c ∈ [((9 : Nat), "old")], c ∈ [((9 : Nat), "old"), ((1 : Nat), "f")]) :=
  ⟨by decide,
    upload_ioerror_no_commit_no_rollback (fun i => i == 2) (DistributedFS.init 3)
      [(9, "old")] "f" [(9, "old"), (1, "f")] (by decide)⟩

/-- Claim C10: an upload rejected for insufficient replicas (source present, all
stores succeeding, fewer than REPLICATION active nodes) leaves the
directory mapping untouched, yet the copy written to every active node
during the scan stays in place, and no pre-existing copy is removed. -/
theorem upload_insufficient_stray_copies (d : DistributedFS) (phys : Phys) (key : String)
    (hA : (activeIds d.nodes).length < REPLICATION) :
    (upload true (fun _ => false) d phys key).2.2 = UploadResult.insufficientReplicas ∧
    (upload true (fun _ => false) d phys key).1.metadata = d.metadata ∧
    (∀ i ∈ activeIds d.nodes, (i, key) ∈ (upload true (fun _ => false) d phys key).2.1) ∧
    (∀ c ∈ phys, c ∈ (upload true (fun _ => false) d phys key).2.1) := by
  rw [upload_noFail_insufficient d phys key hA]
  refine ⟨rfl, rfl, ?_, ?_⟩
  · intro i hi
    exact mem_storeAll_self key (activeIds d.nodes) phys i hi
  · intro c hc
    exact mem_storeAll_of_mem key (activeIds d.nodes) phys hc

theorem upload_insufficient_stray_copies_witness :
    (activeIds (DistributedFS.init 2).nodes).length < REPLICATION ∧
    ((upload true (fun _ => false) (DistributedFS.init 2) [] "f").2.2 =
        UploadResult.insufficientReplicas ∧
      (upload true (fun _ => false) (DistributedFS.init 2) [] "f").1.metadata =
        (DistributedFS.init 2).metadata ∧
      (∀ i ∈ activeIds (DistributedFS.init 2).nodes,
        (i, "f") ∈ (upload true (fun _ => false) (DistributedFS.init 2) [] "f").2.1) ∧
      (∀ c ∈ ([] : Phys),
        c ∈ (upload true (fun _ => false) (DistributedFS.init 2) [] "f").2.1)) :=
  ⟨by decide, upload_insufficient_stray_copies (DistributedFS.init 2) [] "f" (by decide)⟩

end DFS

namespace DFS

lemma downloadScan_firstActive (d : DistributedFS) (ff : Nat → Bool) :
    ∀ (ids : List Nat) (j : Nat), firstActive d ids = some j →
      downloadScan d ff ids =
        if ff j then DownloadResult.replicationIOError else DownloadResult.success j := by
  intro ids
  induction ids with
  | nil =>
    intro j h
    simp [firstActive] at h
  | cons nid rest ih =>
    intro j h
    rw [firstActive] at h
    rw [downloadScan]
    cases ha : nodeActive d nid with
    | true =>
      simp only [ha, if_true] at h ⊢
      cases h
      rfl
    | false =>
      simp only [ha, Bool.false_eq_true, if_false] at h ⊢
      exact ih j h

/-- Claim C4: a download of a stored key is served from the earliest-recorded
replica whose node is active: inactive nodes are skipped in recorded order
and the fetch happens at the first active one (here with the fetch
succeeding). -/
theorem download_first_active_replica (d : DistributedFS) (ff : Nat → Bool)
    (key : String) (ids : List Nat) (j : Nat)
    (h : mapLookup d.metadata key = some ids)
    (hj : firstActive d ids = some j)
    (hf : ff j = false) :
    download d ff key = DownloadResult.success j := by
  unfold download
  rw [h]
  show downloadScan d ff ids = _
  rw [downloadScan_firstActive d ff ids j hj, hf]
  simp

theorem download_first_active_replica_witness :
    mapLookup (smallCluster true false true [2, 1, 3]).metadata "f" = some [2, 1, 3] ∧
    firstActive (smallCluster true false true [2, 1, 3]) [2, 1, 3] = some 1 ∧
    (fun _ : Nat => false) 1 = false ∧
    download (smallCluster true false true [2, 1, 3]) (fun _ => false) "f" =
      DownloadResult.success 1 :=
  ⟨by decide, by decide, rfl,
    download_first_active_replica (smallCluster true false true [2, 1, 3])
      (fun _ => false) "f" [2, 1, 3] 1 (by decide) (by decide) rfl⟩

/-- Claim C6: if the fetch at the selected replica (the first active one) throws,
the whole download reports replicationIOError instead of falling through
to a later replica. -/
theorem download_fetch_failure_aborts (d : DistributedFS) (ff : Nat → Bool)
    (key : String) (ids : List Nat) (j : Nat)
    (h : mapLookup d.metadata key = some ids)
    (hj : firstActive d ids = some j)
    (hf : ff j = true) :
    download d ff key = DownloadResult.replicationIOError := by
  unfold download
  rw [h]
  show downloadScan d ff ids = _
  rw [downloadScan_firstActive d ff ids j hj, hf]
  simp

theorem download_fetch_failure_aborts_witness :
    mapLookup (smallCluster true false true [2, 1, 3]).metadata "f" = some [2, 1, 3] ∧
    firstActive (smallCluster true false true [2, 1, 3]) [2, 1, 3] = some 1 ∧
    (fun i : Nat => i == 1) 1 = true ∧
    download (smallCluster true false true [2, 1, 3]) (fun i => i == 1) "f" =
      DownloadResult.replicationIOError :=
  ⟨by decide, by decide, rfl,
    download_fetch_failure_aborts (smallCluster true false true [2, 1, 3])
      (fun i => i == 1) "f" [2, 1, 3] 1 (by decide) (by decide) rfl⟩

lemma physRemove_not_mem (phys : Phys) (i : Nat) (key : String) :
    (i, key) ∉ physRemove phys i key := by
  simp [physRemove]

lemma deleteScan_subset (rf : Nat → Bool) (key : String) :
    ∀ (ids : List Nat) (phys p' : Phys) (b : Bool),
      deleteScan rf key ids phys = (p', b) → ∀ c ∈ p', c ∈ phys := by
  intro ids
  induction ids with
  | nil =>
    intro phys p' b h c hc
    cases h
    exact hc
  | cons nid rest ih =>
    intro phys p' b h c hc
    rw [deleteScan] at h
    cases hf : rf nid with
    | true =>
      simp only [hf, if_true] at h
      cases h
      exact hc
    | false =>
      simp only [hf, Bool.false_eq_true, if_false] at h
      have hm := ih _ _ _ h c hc
      exact List.mem_of_mem_filter hm

lemma deleteScan_success_removed (rf : Nat → Bool) (key : String) :
    ∀ (ids : List Nat) (phys p' : Phys),
      deleteScan rf key ids phys = (p', true) → ∀ i ∈ ids, (i, key) ∉ p' := by
  intro ids
  induction ids with
  | nil =>
    intro phys p' _h i hi
    cases hi
  | cons nid rest ih =>
    intro phys p' h i hi
    rw [deleteScan] at h
    cases hf : rf nid with
    | true =>
      simp [hf] at h
    | false =>
      simp only [hf, Bool.false_eq_true, if_false] at h
      rcases List.mem_cons.mp hi with rfl | hi'
      · intro hmem
        exact physRemove_not_mem phys i key (deleteScan_subset rf key rest _ p' true h _ hmem)
      · exact ih _ _ h i hi'

lemma mapLookup_eq_none (m : List (String × List Nat)) (k : String)
    (h : k ∉ m.map Prod.fst) : mapLookup m k = none := by
  induction m with
  | nil => rfl
  | cons e rest ih =>
    obtain ⟨k', v'⟩ := e
    simp only [List.map_cons, List.mem_cons, not_or] at h
    rw [mapLookup]
    rw [if_neg (fun hk => h.1 hk.symm)]
    exact ih h.2

lemma mapLookup_mapErase_self (m : List (String × List Nat)) (k : String)
    (hnd : (m.map Prod.fst).Nodup) : mapLookup (mapErase m k) k = none := by
  induction m with
  | nil => rfl
  | cons e rest ih =>
    obtain ⟨k', v'⟩ := e
    simp only [List.map_cons, List.nodup_cons] at hnd
    rw [mapErase]
    by_cases h : k' = k
    · rw [if_pos h]
      subst h
      exact mapLookup_eq_none rest k' hnd.1
    · rw [if_neg h]
      rw [mapLookup, if_neg h]
      exact ih hnd.2

lemma deleteFile_eq_of_lookup (rf : Nat → Bool) (d : DistributedFS) (phys : Phys)
    (key : String) (ids : List Nat) (h : mapLookup d.metadata key = some ids) :
    deleteFile rf d phys key =
      match deleteScan rf key ids phys with
      | (p', true) => ({ d with metadata := mapErase d.metadata key }, p', DeleteResult.success)
      | (p', false) => (d, p', DeleteResult.replicationIOError) := by
  unfold deleteFile
  rw [h]

/-- Claim C1, counterexample: deleting "f" stored on nodes 1, 2, 3 when the
removal at node 2 throws leaves neither of the states the claim allows:
the key is still in the directory, yet the physical copy on node 1 is already
gone. -/
theorem deleteFile_partial_counterexample :
    ¬ ((mapLookup (deleteFile (fun i => i == 2) (smallCluster true true true [1, 2, 3])
          [(1, "f"), (2, "f"), (3, "f")] "f").1.metadata "f" = none) ∨
       ((deleteFile (fun i => i == 2) (smallCluster true true true [1, 2, 3])
          [(1, "f"), (2, "f"), (3, "f")] "f").1 = smallCluster true true true [1, 2, 3] ∧
        ∀ c ∈ [((1 : Nat), "f"), ((2 : Nat), "f"), ((3 : Nat), "f")],
          c ∈ (deleteFile (fun i => i == 2) (smallCluster true true true [1, 2, 3])
            [(1, "f"), (2, "f"), (3, "f")] "f").2.1)) := by
  decide

/-- Claim C1, amended: deleteFile of a stored key either succeeds, removing both
the directory entry and the physical copy on every recorded node, or, on a
removal failure, reports replicationIOError and leaves the directory entry
(the whole coordinator state) untouched — but copies removed on nodes
processed before the failing one stay removed, so partial physical
deletion is observable while the key remains. -/
theorem deleteFile_metadata_atomic (rf : Nat → Bool) (d : DistributedFS) (phys : Phys)
    (key : String) (ids : List Nat)
    (hnd : (d.metadata.map Prod.fst).Nodup)
    (h : mapLookup d.metadata key = some ids) :
    ((deleteFile rf d phys key).2.2 = DeleteResult.success →
        mapLookup (deleteFile rf d phys key).1.metadata key = none ∧
        ∀ i ∈ ids, (i, key) ∉ (deleteFile rf d phys key).2.1) ∧
    ((deleteFile rf d phys key).2.2 = DeleteResult.replicationIOError →
        (deleteFile rf d phys key).1 = d ∧
        ∀ c ∈ (deleteFile rf d phys key).2.1, c ∈ phys) := by
  rcases hscan : deleteScan rf key ids phys with ⟨p', b⟩
  rw [deleteFile_eq_of_lookup rf d phys key ids h, hscan]
  cases b
  · constructor
    · intro hcon
      simp at hcon
    · intro _
      exact ⟨rfl, deleteScan_subset rf key ids phys p' false hscan⟩
  · constructor
    · intro _
      exact ⟨mapLookup_mapErase_self d.metadata key hnd,
        deleteScan_success_removed rf key ids phys p' hscan⟩
    · intro hcon
      simp at hcon

theorem deleteFile_metadata_atomic_witness :
    ((smallCluster true true true [1, 2, 3]).metadata.map Prod.fst).Nodup ∧
    mapLookup (smallCluster true true true [1, 2, 3]).metadata "f" = some [1, 2, 3] ∧
    (((deleteFile (fun _ => false) (smallCluster true true true [1, 2, 3])
          [(1, "f"), (2, "f"), (3, "f")] "f").2.2 = DeleteResult.success →
        mapLookup (deleteFile (fun _ => false) (smallCluster true true true [1, 2, 3])
          [(1, "f"), (2, "f"), (3, "f")] "f").1.metadata "f" = none ∧
        ∀ i ∈ [1, 2, 3], ((i, "f") : Nat × String) ∉
          (deleteFile (fun _ => false) (smallCluster true true true [1, 2, 3])
            [(1, "f"), (2, "f"), (3, "f")] "f").2.1) ∧
      ((deleteFile (fun _ => false) (smallCluster true true true [1, 2, 3])
          [(1, "f"), (2, "f"), (3, "f")] "f").2.2 = DeleteResult.replicationIOError →
        (deleteFile (fun _ => false) (smallCluster true true true [1, 2, 3])
          [(1, "f"), (2, "f"), (3, "f")] "f").1 = smallCluster true true true [1, 2, 3] ∧
        ∀ c ∈ (deleteFile (fun _ => false) (smallCluster true true true [1, 2, 3])
            [(1, "f"), (2, "f"), (3, "f")] "f").2.1,
          c ∈ [((1 : Nat), "f"), ((2 : Nat), "f"), ((3 : Nat), "f")])) :=
  ⟨by decide, by decide,
    deleteFile_metadata_atomic (fun _ => false) (smallCluster true true true [1, 2, 3])
      [(1, "f"), (2, "f"), (3, "f")] "f" [1, 2, 3] (by decide) (by decide)⟩

end DFS

namespace DFS

lemma mem_of_mapLookup (m : List (String × List Nat)) (k : String) (v : List Nat)
    (h : mapLookup m k = some v) : (k, v) ∈ m := by
  induction m with
  | nil => simp [mapLookup] at h
  | cons e rest ih =>
    obtain ⟨k', v'⟩ := e
    rw [mapLookup] at h
    by_cases hk : k' = k
    · rw [if_pos hk] at h
      cases h
      subst hk
      exact List.mem_cons_self _ _
    · rw [if_neg hk] at h
      exact List.mem_cons_of_mem _ (ih h)

lemma mapLookup_of_mem (m : List (String × List Nat)) (e : String × List Nat)
    (hnd : (m.map Prod.fst).Nodup) (hm : e ∈ m) : mapLookup m e.1 = some e.2 := by
  induction m with
  | nil => cases hm
  | cons e' rest ih =>
    obtain ⟨k', v'⟩ := e'
    simp only [List.map_cons, List.nodup_cons] at hnd
    rcases List.mem_cons.mp hm with rfl | hmem
    · rw [mapLookup, if_pos rfl]
    · rw [mapLookup]
      by_cases hk : k' = e.1
      · exfalso
        apply hnd.1
        rw [hk]
        exact List.mem_map_of_mem Prod.fst hmem
      · rw [if_neg hk]
        exact ih hnd.2 hmem

/-- Claim C7: for a stored key with recorded replica list ids, the health audit
emits a warning (key, c) exactly when c is the number of recorded nodes
currently active and that number is below 2 — so the warning exists iff
fewer than 2 replicas are live, and it carries the exact active count. -/
theorem checkReplicaHealth_warning_iff (d : DistributedFS) (key : String)
    (ids : List Nat) (hnd : (d.metadata.map Prod.fst).Nodup)
    (h : mapLookup d.metadata key = some ids) (c : Nat) :
    (key, c) ∈ checkReplicaHealth d ↔ c = activeCount d ids ∧ c < 2 := by
  unfold checkReplicaHealth
  rw [List.mem_filterMap]
  constructor
  · rintro ⟨e, hmem, he⟩
    by_cases hc : activeCount d e.2 < 2
    · rw [if_pos hc] at he
      rcases Option.some_inj.mp he with heq
      have hk : e.1 = key := congrArg Prod.fst heq
      have hcv : activeCount d e.2 = c := congrArg Prod.snd heq
      have hlk := mapLookup_of_mem d.metadata e hnd hmem
      rw [hk, h] at hlk
      have hv : e.2 = ids := (Option.some_inj.mp hlk).symm
      rw [hv] at hcv
      exact ⟨hcv.symm, by rw [← hcv]; rw [← hv]; exact hc⟩
    · rw [if_neg hc] at he
      cases he
  · rintro ⟨rfl, hc⟩
    refine ⟨(key, ids), mem_of_mapLookup d.metadata key ids h, ?_⟩
    rw [if_pos hc]

theorem checkReplicaHealth_warning_iff_witness :
    ((smallCluster false false true [1, 2, 3]).metadata.map Prod.fst).Nodup ∧
    mapLookup (smallCluster false false true [1, 2, 3]).metadata "f" = some [1, 2, 3] ∧
    (("f", 1) ∈ checkReplicaHealth (smallCluster false false true [1, 2, 3]) ↔
      1 = activeCount (smallCluster false false true [1, 2, 3]) [1, 2, 3] ∧ 1 < 2) :=
  ⟨by decide, by decide,
    checkReplicaHealth_warning_iff (smallCluster false false true [1, 2, 3]) "f"
      [1, 2, 3] (by decide) (by decide) 1⟩

lemma setActive_length : ∀ (ns : List Node) (i : Nat) (b : Bool),
    (setActive ns i b).length = ns.length
  | [], _, _ => rfl
  | _ :: rest, 0, _ => by simp [setActive]
  | _ :: rest, i + 1, b => by simp [setActive, setActive_length rest i b]

lemma setActive_getElem? : ∀ (ns : List Node) (i : Nat) (b : Bool),
    (setActive ns i b)[i]? = Option.map (fun n => { n with active := b }) ns[i]?
  | [], i, b => by simp [setActive]
  | n :: rest, 0, b => by simp [setActive]
  | n :: rest, i + 1, b => by
    simp only [setActive, List.getElem?_cons_succ]
    exact setActive_getElem? rest i b

lemma nodeActive_after_set (d : DistributedFS) (x : Nat) (b : Bool)
    (h1 : 1 ≤ x) (h2 : x ≤ d.nodes.length) :
    nodeActive { d with nodes := setActive d.nodes (x - 1) b } x = b := by
  unfold nodeActive
  simp only
  rw [setActive_getElem?]
  rcases hg : d.nodes[x - 1]? with _ | n
  · rw [List.getElem?_eq_none_iff] at hg
    omega
  · simp

lemma failNode_eq (d : DistributedFS) (x : Nat) (h1 : 1 ≤ x) (h2 : x ≤ d.nodes.length) :
    failNode d x = ({ d with nodes := setActive d.nodes (x - 1) false }, NodeOpResult.ok) := by
  unfold failNode
  rw [if_neg (by omega)]

lemma recoverNode_eq (d : DistributedFS) (x : Nat) (h1 : 1 ≤ x) (h2 : x ≤ d.nodes.length) :
    recoverNode d x = ({ d with nodes := setActive d.nodes (x - 1) true }, NodeOpResult.ok) := by
  unfold recoverNode
  rw [if_neg (by omega)]

/-- Claim C9: for a valid node id x, failing node x twice in a row reports ok
both times and leaves node x inactive after each call; recovering twice in
a row reports ok both times and leaves node x active after each call. -/
theorem failNode_recoverNode_idempotent (d : DistributedFS) (x : Nat)
    (h1 : 1 ≤ x) (h2 : x ≤ d.nodes.length) :
    (failNode d x).2 = NodeOpResult.ok ∧
    nodeActive (failNode d x).1 x = false ∧
    (failNode (failNode d x).1 x).2 = NodeOpResult.ok ∧
    nodeActive (failNode (failNode d x).1 x).1 x = false ∧
    (recoverNode d x).2 = NodeOpResult.ok ∧
    nodeActive (recoverNode d x).1 x = true ∧
    (recoverNode (recoverNode d x).1 x).2 = NodeOpResult.ok ∧
    nodeActive (recoverNode (recoverNode d x).1 x).1 x = true := by
  have hf1 := failNode_eq d x h1 h2
  have hr1 := recoverNode_eq d x h1 h2
  have hlen1 : ({ d with nodes := setActive d.nodes (x - 1) false } :
      DistributedFS).nodes.length = d.nodes.length := setActive_length _ _ _
  have hlen2 : ({ d with nodes := setActive d.nodes (x - 1) true } :
      DistributedFS).nodes.length = d.nodes.length := setActive_length _ _ _
  have hf2 := failNode_eq { d with nodes := setActive d.nodes (x - 1) false } x h1 (by omega)
  have hr2 := recoverNode_eq { d with nodes := setActive d.nodes (x - 1) true } x h1 (by omega)
  rw [hf1, hr1]
  simp only
  rw [hf2, hr2]
  simp only
  refine ⟨trivial, nodeActive_after_set d x false h1 h2, trivial, ?_, trivial,
    nodeActive_after_set d x true h1 h2, trivial, ?_⟩
  · exact nodeActive_after_set { d with nodes := setActive d.nodes (x - 1) false } x false h1
      (by rw [hlen1]; exact h2)
  · exact nodeActive_after_set { d with nodes := setActive d.nodes (x - 1) true } x true h1
      (by rw [hlen2]; exact h2)

theorem failNode_recoverNode_idempotent_witness :
    1 ≤ 2 ∧ 2 ≤ (DistributedFS.init 4).nodes.length ∧
    ((failNode (DistributedFS.init 4) 2).2 = NodeOpResult.ok ∧
      nodeActive (failNode (DistributedFS.init 4) 2).1 2 = false ∧
      (failNode (failNode (DistributedFS.init 4) 2).1 2).2 = NodeOpResult.ok ∧
      nodeActive (failNode (failNode (DistributedFS.init 4) 2).1 2).1 2 = false ∧
      (recoverNode (DistributedFS.init 4) 2).2 = NodeOpResult.ok ∧
      nodeActive (recoverNode (DistributedFS.init 4) 2).1 2 = true ∧
      (recoverNode (recoverNode (DistributedFS.init 4) 2).1 2).2 = NodeOpResult.ok ∧
      nodeActive (recoverNode (recoverNode (DistributedFS.init 4) 2).1 2).1 2 = true) :=
  ⟨by decide, by decide,
    failNode_recoverNode_idempotent (DistributedFS.init 4) 2 (by decide) (by decide)⟩

end DFS

namespace DFS

lemma setActive_map_id : ∀ (ns : List Node) (i : Nat) (b : Bool),
    (setActive ns i b).map Node.id = ns.map Node.id
  | [], _, _ => rfl
  | n :: rest, 0, b => by simp [setActive]
  | n :: rest, i + 1, b => by simp [setActive, setActive_map_id rest i b]

lemma upload_nodes_eq (src : Bool) (sf : Nat → Bool) (d : DistributedFS)
    (phys : Phys) (key : String) : (upload src sf d phys key).1.nodes = d.nodes := by
  unfold upload
  cases src
  · simp
  · simp only [Bool.not_true, Bool.false_eq_true, if_false]
    cases h : uploadScan sf key d.nodes phys [] 0 with
    | thrown p => simp
    | done p u r =>
      by_cases hr : r < REPLICATION
      · simp [hr]
      · simp [hr]

lemma upload_metadata_cases (src : Bool) (sf : Nat → Bool) (d : DistributedFS)
    (phys : Phys) (key : String) :
    (upload src sf d phys key).1.metadata = d.metadata ∨
    ∃ p' u r, uploadScan sf key d.nodes phys [] 0 = ScanOut.done p' u r ∧
      (upload src sf d phys key).1.metadata = mapPut d.metadata key u := by
  unfold upload
  cases src
  · left; simp
  · simp only [Bool.not_true, Bool.false_eq_true, if_false]
    cases h : uploadScan sf key d.nodes phys [] 0 with
    | thrown p => left; simp
    | done p u r =>
      by_cases hr : r < REPLICATION
      · left; simp [hr]
      · right
        exact ⟨p, u, r, rfl, by simp [hr]⟩

lemma uploadScan_done_used (sf : Nat → Bool) (key : String) :
    ∀ (ns : List Node) (phys : Phys) (used : List Nat) (r : Nat) (p' : Phys)
      (u : List Nat) (rr : Nat),
      uploadScan sf key ns phys used r = ScanOut.done p' u rr →
      ∀ i ∈ u, i ∈ used ∨ i ∈ ns.map Node.id := by
  intro ns
  induction ns with
  | nil =>
    intro phys used r p' u rr h i hi
    cases h
    exact Or.inl hi
  | cons n rest ih =>
    intro phys used r p' u rr h i hi
    rw [uploadScan] at h
    cases ha : n.active with
    | true =>
      simp only [ha, if_true] at h
      cases hf : sf n.id with
      | true => simp [hf] at h
      | false =>
        simp only [hf, Bool.false_eq_true, if_false] at h
        by_cases hstop : r + 1 = REPLICATION
        · rw [if_pos hstop] at h
          cases h
          rcases List.mem_append.mp hi with hu | hn
          · exact Or.inl hu
          · right
            simp [List.mem_singleton.mp hn]
        · rw [if_neg hstop] at h
          rcases ih _ _ _ _ _ _ h i hi with hu | hn
          · rcases List.mem_append.mp hu with hu1 | hu2
            · exact Or.inl hu1
            · right
              simp [List.mem_singleton.mp hu2]
          · right
            simp [hn]
    | false =>
      simp only [ha, Bool.false_eq_true, if_false] at h
      by_cases hstop : r = REPLICATION
      · rw [if_pos hstop] at h
        cases h
        exact Or.inl hi
      · rw [if_neg hstop] at h
        rcases ih _ _ _ _ _ _ h i hi with hu | hn
        · exact Or.inl hu
        · right
          simp [hn]

lemma mem_mapPut (m : List (String × List Nat)) (k : String) (v : List Nat)
    (e : String × List Nat) (h : e ∈ mapPut m k v) : e ∈ m ∨ e = (k, v) := by
  induction m with
  | nil =>
    rw [mapPut] at h
    rcases List.mem_singleton.mp h with rfl
    exact Or.inr rfl
  | cons e' rest ih =>
    obtain ⟨k', v'⟩ := e'
    rw [mapPut] at h
    by_cases hk : k' = k
    · rw [if_pos hk] at h
      rcases List.mem_cons.mp h with rfl | hm
      · exact Or.inr rfl
      · exact Or.inl (List.mem_cons_of_mem _ hm)
    · rw [if_neg hk] at h
      rcases List.mem_cons.mp h with rfl | hm
      · exact Or.inl (List.mem_cons_self _ _)
      · rcases ih hm with h1 | h2
        · exact Or.inl (List.mem_cons_of_mem _ h1)
        · exact Or.inr h2

lemma mem_mapErase (m : List (String × List Nat)) (k : String)
    (e : String × List Nat) (h : e ∈ mapErase m k) : e ∈ m := by
  induction m with
  | nil => cases h
  | cons e' rest ih =>
    obtain ⟨k', v'⟩ := e'
    rw [mapErase] at h
    by_cases hk : k' = k
    · rw [if_pos hk] at h
      exact List.mem_cons_of_mem _ h
    · rw [if_neg hk] at h
      rcases List.mem_cons.mp h with rfl | hm
      · exact List.mem_cons_self _ _
      · exact List.mem_cons_of_mem _ (ih hm)

lemma deleteFile_nodes_eq (rf : Nat → Bool) (d : DistributedFS) (phys : Phys)
    (key : String) : (deleteFile rf d phys key).1.nodes = d.nodes := by
  unfold deleteFile
  cases h : mapLookup d.metadata key with
  | none => simp
  | some ids =>
    rcases hscan : deleteScan rf key ids phys with ⟨p', b⟩
    cases b <;> simp [hscan]

lemma deleteFile_metadata_cases (rf : Nat → Bool) (d : DistributedFS) (phys : Phys)
    (key : String) :
    (deleteFile rf d phys key).1.metadata = d.metadata ∨
    (deleteFile rf d phys key).1.metadata = mapErase d.metadata key := by
  unfold deleteFile
  cases h : mapLookup d.metadata key with
  | none => left; simp
  | some ids =>
    rcases hscan : deleteScan rf key ids phys with ⟨p', b⟩
    cases b
    · left; simp [hscan]
    · right; simp [hscan]

lemma wf_upload {d : DistributedFS} (hwf : NodesWF d) (hval : idsValid d)
    (src : Bool) (sf : Nat → Bool) (phys : Phys) (key : String) :
    NodesWF (upload src sf d phys key).1 ∧ idsValid (upload src sf d phys key).1 := by
  have hn := upload_nodes_eq src sf d phys key
  constructor
  · unfold NodesWF
    rw [hn]
    exact hwf
  · rcases upload_metadata_cases src sf d phys key with hm | ⟨p', u, r, hscan, hm⟩
    · intro e he i hi
      rw [hm] at he
      rw [hn]
      exact hval e he i hi
    · intro e he i hi
      rw [hm] at he
      rw [hn]
      rcases mem_mapPut _ _ _ _ he with h1 | h2
      · exact hval e h1 i hi
      · rw [h2] at hi
        rcases uploadScan_done_used sf key d.nodes phys [] 0 p' u r hscan i hi with h3 | h3
        · cases h3
        · rw [hwf] at h3
          have hb := List.mem_range'_1.mp h3
          omega

lemma wf_deleteFile {d : DistributedFS} (hwf : NodesWF d) (hval : idsValid d)
    (rf : Nat → Bool) (phys : Phys) (key : String) :
    NodesWF (deleteFile rf d phys key).1 ∧ idsValid (deleteFile rf d phys key).1 := by
  have hn := deleteFile_nodes_eq rf d phys key
  constructor
  · unfold NodesWF
    rw [hn]
    exact hwf
  · rcases deleteFile_metadata_cases rf d phys key with hm | hm <;>
      intro e he i hi <;> rw [hm] at he <;> rw [hn]
    · exact hval e he i hi
    · exact hval e (mem_mapErase _ _ _ he) i hi

lemma wf_setActive {d : DistributedFS} (hwf : NodesWF d) (hval : idsValid d)
    (i : Nat) (b : Bool) :
    NodesWF { d with nodes := setActive d.nodes (i - 1) b } ∧
    idsValid { d with nodes := setActive d.nodes (i - 1) b } := by
  constructor
  · unfold NodesWF
    simp only
    rw [setActive_map_id, setActive_length]
    exact hwf
  · intro e he j hj
    simp only at he ⊢
    rw [setActive_length]
    exact hval e he j hj

lemma wf_failNode {d : DistributedFS} (hwf : NodesWF d) (hval : idsValid d) (i : Nat) :
    NodesWF (failNode d i).1 ∧ idsValid (failNode d i).1 := by
  unfold failNode
  split
  · exact ⟨hwf, hval⟩
  · exact wf_setActive hwf hval i false

lemma wf_recoverNode {d : DistributedFS} (hwf : NodesWF d) (hval : idsValid d) (i : Nat) :
    NodesWF (recoverNode d i).1 ∧ idsValid (recoverNode d i).1 := by
  unfold recoverNode
  split
  · exact ⟨hwf, hval⟩
  · exact wf_setActive hwf hval i true

lemma reachable_wf {d : DistributedFS} (h : Reachable d) : NodesWF d ∧ idsValid d := by
  induction h with
  | init n =>
    refine ⟨nodesWF_init n, ?_⟩
    intro e he
    cases he
  | upload src sf phys key _ ih => exact wf_upload ih.1 ih.2 src sf phys key
  | deleteFile rf phys key _ ih => exact wf_deleteFile ih.1 ih.2 rf phys key
  | failNode i _ ih => exact wf_failNode ih.1 ih.2 i
  | recoverNode i _ ih => exact wf_recoverNode ih.1 ih.2 i

/-- Claim C8: in every state reachable from the constructor through the
state-mutating operations (download and the health audit read but never
write the coordinator state), every node id recorded in any replica set
lies in [1, total node count], hence identifies an existing node. -/
theorem reachable_replica_ids_valid (d : DistributedFS) (h : Reachable d) :
    idsValid d :=
  (reachable_wf h).2

theorem reachable_replica_ids_valid_witness :
    idsValid (upload true (fun _ => false) (DistributedFS.init 4) [] "a").1 :=
  reachable_replica_ids_valid _
    (Reachable.upload true (fun _ => false) [] "a" (Reachable.init 4))

end DFS
